import Mathlib

/-!
Verification development for the modulix-core-utils configuration editor.

The development shallowly embeds the Rust sources:

* `src/core/localise_option.rs` — the option locator (`SettingsPosition`),
* `src/edit_ast/utils.rs`, `src/edit_ast/edit_option_ast.rs`,
  `src/edit_ast/edit_list_ast.rs` — the text-level mutators,
* `src/transaction/file_lock.rs`, `src/transaction/transaction.rs` — the
  managed-file and transaction layer,

and proves or refutes the specification's claims about them.

Modelling conventions:
* Byte buffers are Lean `String`s; all the concrete inputs used are ASCII, so
  Rust byte offsets coincide with the character offsets used here.
* A dotted path (Rust `&str` split on `'.'`) is represented by its list of
  segments (`List String`).  The Rust code only ever inspects such strings
  through `split('.')`, `strip_prefix` of a segment-aligned prefix, and
  `len()`; these are mirrored segment-wise (`dottedLen` mirrors `len()`).
* The read-only syntax tree delivered by the external `rnix` parser is an
  inductive `Node` carrying the node kind, its half-open byte range and its
  ordered children; `ATTRPATH` nodes carry their dotted text, already split
  into segments.
-/

/-- Node kinds of the `rnix` concrete syntax tree that the locator inspects
(`rnix::SyntaxKind`).  `OTHER` stands for every kind the code does not treat
specially (for example `NODE_ROOT`). -/
inductive Kind where
  | ATTR_SET
  | ATTRPATH_VALUE
  | ATTRPATH
  | LIST
  | WITH
  | IDENT
  | LITERAL
  | STRING
  | PATH_REL
  | PATH_ABS
  | PATH_HOME
  | PATH_SEARCH
  | OTHER
deriving DecidableEq, Repr

/-- Half-open byte range `[start, stop)` into the source, mirroring
`rnix::TextRange`. -/
structure TextRange where
  start : Nat
  stop : Nat
deriving DecidableEq, Repr

/-- A node of the parsed syntax tree (read-only view, spec §3): a kind, a byte
range, the dotted segments of its text when the node is an `ATTRPATH`, and the
ordered child nodes. -/
inductive Node where
  | mk (kind : Kind) (range : TextRange) (segs : List String) (children : List Node)

def Node.kind : Node → Kind
  | .mk k _ _ _ => k

def Node.text_range : Node → TextRange
  | .mk _ r _ _ => r

def Node.segs : Node → List String
  | .mk _ _ s _ => s

def Node.children : Node → List Node
  | .mk _ _ _ cs => cs

/-- The `SettingsPosition` record from `src/core/localise_option.rs`: the definition
range, the optional value range, and the optional remaining path.  The
`indent_level` field is read by the mutators through `get_indent_level`; its
computation is absent from the source snapshot, so it is modelled from the
spec (§4.1): the nesting depth of the enclosing attribute set, root set = 1. -/
structure SettingsPosition where
  def_option : TextRange
  value_option : Option TextRange
  option_path : Option (List String)
  indent_level : Nat
deriving DecidableEq, Repr

def SettingsPosition.get_pos_definition (p : SettingsPosition) : TextRange :=
  p.def_option

def SettingsPosition.get_pos_definition_value (p : SettingsPosition) : Option TextRange :=
  p.value_option

def SettingsPosition.get_remaining_path (p : SettingsPosition) : Option (List String) :=
  p.option_path

def SettingsPosition.get_indent_level (p : SettingsPosition) : Nat :=
  p.indent_level

/-- Byte length of the dotted string formed by the segments (segments joined
by `'.'`): mirrors `&str::len()` applied to a remaining path. -/
def dottedLen (l : List String) : Nat :=
  (l.map String.length).sum + (l.length - 1)

/-- The prefix test of `localise_option_node_attrpath_value` (lines 332–337):
`attr_path.split('.').count() <= settings.split('.').count()` and all zipped
segments equal. -/
def segsPrefixOf (attr settings : List String) : Bool :=
  attr.length ≤ settings.length &&
    (List.zip attr settings).all (fun p => p.1 == p.2)

/-- Step 1 of `localise_option_node_attrpath_value`: the first `NODE_ATTRPATH`
child whose text is a segment-wise prefix of `settings` (the `break` keeps the
first hit). -/
def findAttrSegs : List Node → List String → Option (List String)
  | [], _ => none
  | c :: rest, settings =>
    if c.kind = .ATTRPATH && segsPrefixOf c.segs settings then
      some c.segs
    else
      findAttrSegs rest settings

/-- The child-kind filter of step 2 of
`localise_option_node_attrpath_value` (lines 351–364). -/
def isValueKind : Kind → Bool
  | .ATTR_SET | .LIST | .WITH | .IDENT | .PATH_REL | .PATH_ABS | .PATH_HOME
  | .PATH_SEARCH | .STRING | .LITERAL => true
  | _ => false

mutual

/-- Embeds `SettingsPosition::localise_option`: dispatch on the node kind.  The extra
`lvl` argument is the indent level of the enclosing attribute set (modelled
from the spec, §4.1; the top-level call passes 0 and each attribute set deepens
it by one).  The two specialised handlers are inlined here (they are wrapped
under their source names below); the `ATTRPATH_VALUE` arm first finds the
prefix-valid attribute path and then runs the value loop. -/
def localise_option (ast : Node) (settings : List String) (lvl : Nat) :
    Option SettingsPosition :=
  match ast with
  | .mk k r _ cs =>
    match k with
    | .ATTR_SET => some (attrSetGo cs r settings (lvl + 1) none)
    | .ATTRPATH_VALUE =>
      match findAttrSegs cs settings with
      | none => none
      | some attr => stepValue r cs attr settings lvl
    | _ => localiseFirst cs settings lvl

/-- The child loop of the `_` arm of `localise_option`: first `Some` wins. -/
def localiseFirst (cs : List Node) (settings : List String) (lvl : Nat) :
    Option SettingsPosition :=
  match cs with
  | [] => none
  | c :: rest =>
    match localise_option c settings lvl with
    | some ret => some ret
    | none => localiseFirst rest settings lvl

/-- The fold of `localise_option_node_attr_set` (lines 229–264): search all
children, short-circuit on an exact match, otherwise keep the best partial
match, and fall back to an insertion point just before the closing brace.
`r` is the set's range, `lvl` its own indent level, and `best` carries the
current best partial match together with the residual path it was stored with
(the source reads it back with `option_path.unwrap()`; a stored best always
has one). -/
def attrSetGo (cs : List Node) (r : TextRange) (setting : List String)
    (lvl : Nat) (best : Option (SettingsPosition × List String)) :
    SettingsPosition :=
  match cs with
  | [] =>
    -- Return the best match, or an insertion point before the closing brace
    match best with
    | some b => b.1
    | none =>
      { def_option := ⟨r.stop - 1, r.stop - 1⟩
        value_option := none
        option_path := some setting
        indent_level := lvl }
  | c :: rest =>
    match localise_option c setting lvl with
    | none => attrSetGo rest r setting lvl best
    | some pos =>
      match pos.option_path with
      | none => pos          -- exact match found: return immediately
      | some pRes =>
        match best with
        | none => attrSetGo rest r setting lvl (some (pos, pRes))
        | some b =>
          if dottedLen pRes > dottedLen b.2 then
            attrSetGo rest r setting lvl (some (pos, pRes))
          else
            attrSetGo rest r setting lvl best

/-- The value loop of `localise_option_node_attrpath_value` (lines 366–403).
Children that are not of a value kind are skipped (the source iterates the
filtered child list); a `WITH` node with no children falls through to the next
candidate, exactly as the inner `for` of the source does.  A nested
`ATTR_SET` value recurses into the stripped path; an exact match on a
set-valued binding (nothing left to strip the separator from) returns
`none`. -/
def stepValue (r : TextRange) (cs : List Node) (attr settings : List String)
    (lvl : Nat) : Option SettingsPosition :=
  match cs with
  | [] => none
  | c :: rest =>
    if isValueKind c.kind then
      if c.kind = .ATTR_SET then
        if attr.length = settings.length then
          none
        else
          match c with
          | .mk _ rc _ csc =>
            some (attrSetGo csc rc (settings.drop attr.length) (lvl + 1) none)
      else if c.kind = .WITH then
        match c.children with
        | [] => stepValue r rest attr settings lvl
        | w :: _ =>
          if w.kind = .LIST then
            some { def_option := r
                   value_option := some w.text_range
                   option_path := none
                   indent_level := lvl }
          else
            none
      else
        some { def_option := r
               value_option := some c.text_range
               option_path := none
               indent_level := lvl }
    else
      stepValue r rest attr settings lvl

end

/-- Embeds `SettingsPosition::localise_option_node_attr_set`, as a wrapper around its
fold. -/
def localise_option_node_attr_set (ast : Node) (setting : List String)
    (lvl : Nat) : SettingsPosition :=
  attrSetGo ast.children ast.text_range setting lvl none

/-- Embeds `SettingsPosition::localise_option_node_attrpath_value`, as a wrapper
around the prefix search and the value loop. -/
def localise_option_node_attrpath_value (ast : Node) (settings : List String)
    (lvl : Nat) : Option SettingsPosition :=
  match findAttrSegs ast.children settings with
  | none => none
  | some attr => stepValue ast.text_range ast.children attr settings lvl

/-- Embeds `SettingsPosition::new`: locate `settings` in the tree, starting outside
any attribute set (level 0, so that the root set gets level 1). -/
def SettingsPosition.new (nix_ast : Node) (settings : List String) :
    Option SettingsPosition :=
  localise_option nix_ast settings 0

/-! ### The external parser, modelled from the spec

The program consumes trees produced by the external `rnix` parser (an
out-of-scope collaborator, spec §1/§4.2).  The fragment of the configuration
language that the spec describes (§3, §6: attribute sets, dotted bindings,
lists, strings, numbers, identifiers and path literals) is parsed here into a
`Doc` structure carrying exact byte ranges, and `toNode` renders it as the
read-only tree the locator walks. -/

/-- Kinds a parsed leaf value can have (every value kind except nested
attribute sets and `with` expressions). -/
inductive LeafKind where
  | ident
  | literal
  | strv
  | pathRel
  | pathAbs
  | pathHome
  | pathSearch
  | listv
deriving DecidableEq, Repr

def LeafKind.toKind : LeafKind → Kind
  | .ident => .IDENT
  | .literal => .LITERAL
  | .strv => .STRING
  | .pathRel => .PATH_REL
  | .pathAbs => .PATH_ABS
  | .pathHome => .PATH_HOME
  | .pathSearch => .PATH_SEARCH
  | .listv => .LIST

mutual

/-- Modelled from the spec: a parsed value — a nested attribute set with its
bindings, or a leaf value — together with its byte range. -/
inductive DocValue where
  | vset (r : TextRange) (bs : List DocBinding)
  | vleaf (k : LeafKind) (r : TextRange)

/-- Modelled from the spec: a parsed `key-path = value;` binding: the range of
the whole binding (semicolon included), the range and the dotted segments of
its attribute path, and its value. -/
inductive DocBinding where
  | mk (r : TextRange) (pr : TextRange) (segs : List String) (v : DocValue)

end

mutual

/-- Render a parsed value as the read-only syntax-tree node the locator
walks. -/
def DocValue.toNode : DocValue → Node
  | .vset r bs => .mk .ATTR_SET r [] (toNodeList bs)
  | .vleaf k r => .mk k.toKind r [] []

/-- Render a parsed binding as an `ATTRPATH_VALUE` node with its `ATTRPATH`
child followed by its value child. -/
def DocBinding.toNode : DocBinding → Node
  | .mk r pr segs v => .mk .ATTRPATH_VALUE r [] [.mk .ATTRPATH pr segs [], v.toNode]

def toNodeList : List DocBinding → List Node
  | [] => []
  | b :: rest => b.toNode :: toNodeList rest

end

/-- ASCII whitespace recognised between tokens. -/
def isWsChar (c : Char) : Bool :=
  c = ' ' || c = '\t' || c = '\n' || c = '\r'

/-- Skip whitespace, advancing the absolute position. -/
def skipWs : List Char → Nat → List Char × Nat
  | [], p => ([], p)
  | c :: rest, p => if isWsChar c then skipWs rest (p + 1) else (c :: rest, p)

/-- Scan a token: the maximal run of characters on which `stop` is false.
Returns the token, the remaining input and the new position. -/
def scanTok (stop : Char → Bool) : List Char → Nat → List Char × List Char × Nat
  | [], p => ([], [], p)
  | c :: rest, p =>
    if stop c then ([], c :: rest, p)
    else
      let (t, r, q) := scanTok stop rest (p + 1)
      (c :: t, r, q)

/-- Scan up to and through the terminator character. -/
def scanThrough (term : Char) : List Char → Nat → Option (List Char × Nat)
  | [], _ => none
  | c :: rest, p =>
    if c = term then some (rest, p + 1) else scanThrough term rest (p + 1)

/-- Split a token into its dotted segments (mirrors Rust `str::split('.')`:
the result is always non-empty). -/
def splitDotGo : List Char → List Char → List String
  | [], cur => [String.mk cur.reverse]
  | c :: rest, cur =>
    if c = '.' then String.mk cur.reverse :: splitDotGo rest []
    else splitDotGo rest (c :: cur)

def splitDot (s : String) : List String :=
  splitDotGo s.data []

/-- Classify a leaf token by its first characters (spec §3 value kinds). -/
def classifyLeaf : List Char → LeafKind
  | [] => .ident
  | '.' :: '/' :: _ => .pathRel
  | '/' :: _ => .pathAbs
  | '~' :: _ => .pathHome
  | '<' :: _ => .pathSearch
  | c :: _ => if c.isDigit then .literal else .ident

/-- Characters that end a leaf value token. -/
def valueTokStop (c : Char) : Bool :=
  isWsChar c || c = ';' || c = '\x7d'

/-- Characters that end an attribute-path token. -/
def attrTokStop (c : Char) : Bool :=
  isWsChar c || c = '='

mutual

/-- Modelled from the spec: parse one value starting at the current input.
`fuel` bounds the recursion depth (any value larger than the input length is
sufficient). -/
def parseValue (fuel : Nat) (cs : List Char) (p : Nat) :
    Option (DocValue × List Char × Nat) :=
  match fuel with
  | 0 => none
  | fuel + 1 =>
    match cs with
    | [] => none
    | c :: rest =>
      if c = '\x7b' then
        match parseBindings fuel rest (p + 1) [] with
        | none => none
        | some (bs, rem, q) => some (.vset ⟨p, q⟩ bs, rem, q)
      else if c = '[' then
        match scanThrough (']') rest (p + 1) with
        | none => none
        | some (rem, q) => some (.vleaf .listv ⟨p, q⟩, rem, q)
      else if c = '"' then
        match scanThrough ('"') rest (p + 1) with
        | none => none
        | some (rem, q) => some (.vleaf .strv ⟨p, q⟩, rem, q)
      else
        match scanTok valueTokStop cs p with
        | ([], _, _) => none
        | (t, rem, q) => some (.vleaf (classifyLeaf t) ⟨p, q⟩, rem, q)

/-- Modelled from the spec: parse the bindings of an attribute set up to and
through the closing brace.  Returns the bindings, the remaining input, and
the position just after the brace. -/
def parseBindings (fuel : Nat) (cs : List Char) (p : Nat)
    (acc : List DocBinding) : Option (List DocBinding × List Char × Nat) :=
  match fuel with
  | 0 => none
  | fuel + 1 =>
    let (cs1, p1) := skipWs cs p
    match cs1 with
    | [] => none
    | c :: rest =>
      if c = '\x7d' then
        some (acc.reverse, rest, p1 + 1)
      else
        match scanTok attrTokStop cs1 p1 with
        | ([], _, _) => none
        | (t, cs2, p2) =>
          let (cs3, p3) := skipWs cs2 p2
          match cs3 with
          | '=' :: cs4 =>
            let (cs5, p5) := skipWs cs4 (p3 + 1)
            match parseValue fuel cs5 p5 with
            | none => none
            | some (v, cs6, p6) =>
              let (cs7, p7) := skipWs cs6 p6
              match cs7 with
              | ';' :: cs8 =>
                parseBindings fuel cs8 (p7 + 1)
                  (DocBinding.mk ⟨p1, p7 + 1⟩ ⟨p1, p2⟩ (splitDot (String.mk t)) v :: acc)
              | _ => none
          | _ => none

end

/-- Modelled from the spec: parse a configuration document — a single
top-level attribute set, possibly surrounded by whitespace.  `none` stands for
a source on which the locator of the real program finds no attribute set at
all (garbled input). -/
def parse (s : String) : Option DocValue :=
  match parseValue (s.data.length + 1) (skipWs s.data 0).1 (skipWs s.data 0).2 with
  | some (DocValue.vset r bs, rem, _) =>
    if (skipWs rem 0).1.isEmpty then some (.vset r bs) else none
  | _ => none

/-- The root node `rnix::Root::parse(..).syntax()` hands to the locator: a
wrapper node covering the whole source whose only child is the document's
attribute set. -/
def rnixRoot (s : String) (d : DocValue) : Node :=
  .mk .OTHER ⟨0, s.length⟩ [] [d.toNode]

/-! ### Text-level mutators

Embedded from `src/edit_ast/utils.rs`, `src/edit_ast/edit_option_ast.rs` and
`src/edit_ast/edit_list_ast.rs`.  The Rust functions mutate a `String` buffer
in place and persist it through `write_file`; here each returns the new buffer
(errors leave the caller's buffer untouched, which the theorems make
explicit), and the `write_file` persistence callback — pure filesystem I/O —
is modelled as succeeding. -/

/-- The constant `TABULATION_SIZE` (`crate::core`; constant not in the source snapshot,
modelled from the spec §6: the indent unit is 2 spaces). -/
def TABULATION_SIZE : Nat := 2

/-- A run of `n` spaces (`" ".repeat(n)`). -/
def spaces (n : Nat) : String :=
  String.mk (List.replicate n (' '))

/-- Embeds `text.chars().nth(i)` on an ASCII buffer. -/
def charAt (s : String) (i : Nat) : Option Char :=
  s.data.get? i

/-- Embeds `file_content.get(range)`: the slice of the buffer at `[start, stop)`, or
`None` when the range is out of bounds. -/
def strSlice (s : String) (start stop : Nat) : Option String :=
  if start ≤ stop && stop ≤ s.length then
    some (String.mk ((s.data.take stop).drop start))
  else
    none

/-- Embeds `String::replace_range(start..stop, repl)`. -/
def replaceRange (s : String) (start stop : Nat) (repl : String) : String :=
  String.mk (s.data.take start ++ repl.data ++ s.data.drop stop)

/-- The loop of `count_char_before_newline` (`src/edit_ast/utils.rs`): walk
backwards from index `pos - 1` while the character is not a newline (a missing
character counts as a newline, mirroring `unwrap_or('\n')`). -/
def ccbnGo (text : List Char) : Nat → Nat → Nat
  | 0, n => n
  | pos + 1, n =>
    if ((text.get? pos).getD ('\n')) ≠ '\n' then ccbnGo text pos (n + 1)
    else n

/-- Embeds `count_char_before_newline` from `src/edit_ast/utils.rs`: the number of
characters immediately before position `initial_pos + 1` up to, and not
including, the most recent newline. -/
def count_char_before_newline (text : String) (initial_pos : Nat) : Nat :=
  ccbnGo text.data (initial_pos + 1) 0

/-- Embeds `pos_option_in_file` from `src/edit_ast/edit_option_ast.rs`: parse the
buffer and locate the option.  The real `rnix` parser always yields a tree and
the locator then returns `None` on a tree with no attribute set; both failure
shapes collapse to the same error value here. -/
def pos_option_in_file (file_content : String) (nix_option : List String) :
    Except String SettingsPosition :=
  match parse file_content with
  | some d =>
    match SettingsPosition.new (rnixRoot file_content d) nix_option with
    | some p => .ok p
    | none => .error "Impossible to get position option in file"
  | none => .error "Impossible to get position option in file"

/-- Embeds `get_option` from `src/edit_ast/edit_option_ast.rs`. -/
def get_option (file_content : String) (nix_option : List String) :
    Except String String :=
  match pos_option_in_file file_content nix_option with
  | .error e => .error e
  | .ok pos =>
    match pos.get_pos_definition_value with
    | some value =>
      match strSlice file_content value.start value.stop with
      | some sub => .ok sub
      | none => .error "Range value not found in file"
    | none => .error "Value not defined in this file"

/-- The inner `write_option` of `set_option`
(`src/edit_ast/edit_option_ast.rs`, lines 45–68): compose the text block for
the remaining path at the given indent. -/
def write_option : List String → Nat → String → String
  | [], _, _ => ""
  | key :: rest, indent, option_value =>
    if rest.length = 0 then
      spaces (TABULATION_SIZE * indent) ++ key ++ " = " ++ option_value ++
        ";\n" ++ spaces (TABULATION_SIZE * (indent - 1))
    else
      spaces (TABULATION_SIZE * indent) ++ key ++ " = \x7b\n" ++
        write_option rest (indent + 1) option_value ++
        "\x7d;\n" ++ spaces (TABULATION_SIZE * (indent - 1))

/-- Embeds `set_option` from `src/edit_ast/edit_option_ast.rs` (the Lean name
differs because `set_option` is a Lean keyword).  On a partial match it
composes a block for the remaining path and replaces the slice from
`insert_pos - number_previous_indent` to `insert_pos`; on an exact match it
replaces the value range. -/
def setOption (file_content : String) (nix_option : List String)
    (option_value : String) : Except String String :=
  match pos_option_in_file file_content nix_option with
  | .error e => .error e
  | .ok pos =>
    match pos.get_remaining_path with
    | some path =>
      let indent := if pos.get_indent_level > 0 then pos.get_indent_level else 1
      let insert_pos := pos.get_pos_definition.start
      let number_previous_indent :=
        count_char_before_newline file_content (insert_pos - 1)
      .ok (replaceRange file_content (insert_pos - number_previous_indent)
        insert_pos (write_option path indent option_value))
    | none =>
      match pos.get_pos_definition_value with
      | some value =>
        .ok (replaceRange file_content value.start value.stop option_value)
      | none => .error "Unknow error"

/-- The whitespace-trim loop of `set_option_to_default`: while the character
before the position is a space, tab or newline, remove it (`remove(pos-1)`;
a missing character stops the loop, mirroring the Rust `Some(_) | _ => false`
arm). -/
def trimBeforeGo (fc : List Char) : Nat → List Char
  | 0 => fc
  | pos + 1 =>
    match fc.get? pos with
    | some c =>
      if c = ' ' || c = '\t' || c = '\n' then trimBeforeGo (fc.eraseIdx pos) pos
      else fc
    | none => fc

/-- Embeds `set_option_to_default` from `src/edit_ast/edit_option_ast.rs`: erase the
whole definition range, then trim the run of whitespace immediately before it.
Returns whether something was removed, together with the new buffer. -/
def set_option_to_default (file_content : String) (nix_option : List String) :
    Except String (Bool × String) :=
  match pos_option_in_file file_content nix_option with
  | .error e => .error e
  | .ok pos =>
    match pos.get_pos_definition_value with
    | some _ =>
      let fc1 := replaceRange file_content pos.get_pos_definition.start
        pos.get_pos_definition.stop ("")
      let fc2 := String.mk (trimBeforeGo fc1.data pos.get_pos_definition.start)
      .ok (true, fc2)
    | none => .ok (false, file_content)

/-- Embeds `str_is_list` from `src/edit_ast/edit_list_ast.rs`: at least two
characters, starting with `[` and ending with `]`. -/
def str_is_list (list : String) : Bool :=
  list.length ≥ 2 && list.data.head? == some ('[') &&
    list.data.getLast? == some (']')

/-- Embeds `split_ascii_whitespace`: the whitespace-separated tokens of a character
list. -/
def splitWsGo : List Char → List Char → List String
  | [], cur => if cur.isEmpty then [] else [String.mk cur.reverse]
  | c :: rest, cur =>
    if isWsChar c then
      if cur.isEmpty then splitWsGo rest []
      else String.mk cur.reverse :: splitWsGo rest []
    else splitWsGo rest (c :: cur)

def splitWs (l : List Char) : List String :=
  splitWsGo l []

/-- The element view of a bracketed list:
`strip_prefix('[')…strip_suffix(']')…split_ascii_whitespace` (callers guard
with `str_is_list`). -/
def listElems (list : String) : List String :=
  splitWs ((list.data.drop 1).dropLast)

/-- The backwards scan of `add_in_list` (lines 59–72): starting at the second
character from the end, skip whitespace until a newline (`false`) or any other
character (`true`) is found, counting the steps.  The input is the reversed
list with its last character dropped; an all-whitespace input would make the
Rust loop run forever, which cannot happen for a bracketed list (the opening
bracket stops it); `none` marks that unreachable case. -/
def nlScanGo : List Char → Nat → Option (Bool × Nat)
  | [], _ => none
  | c :: rest, pos =>
    if c = '\n' then some (false, pos)
    else if !c.isWhitespace then some (true, pos)
    else nlScanGo rest (pos + 1)

/-- Embeds `add_in_list` from `src/edit_ast/edit_list_ast.rs`.  Note
`TABULATION_SIZE * (indent_level + 1) - pos` is a `usize` subtraction in the
source; it is mirrored by truncated `Nat` subtraction. -/
def add_in_list (file_content : String) (nix_list : List String)
    (insert_value : String) (unique_value_in_list : Bool) :
    Except String String :=
  match pos_option_in_file file_content nix_list with
  | .error e => .error e
  | .ok val_list =>
    let indent_level := val_list.get_indent_level
    match val_list.get_pos_definition_value with
    | some list_pos =>
      match strSlice file_content list_pos.start list_pos.stop with
      | none => .error "Impossible to read list"
      | some list =>
        if !str_is_list list then .error "This option is not a list"
        else if !unique_value_in_list
            || (listElems list).all (fun e => e ≠ insert_value) then
          match nlScanGo (list.data.reverse.drop 1) 1 with
          | none => .error "Impossible to read list"   -- unreachable, see above
          | some (newline, pos0) =>
            let pos := pos0 - 1
            let str_before := (if newline then "\n" else "") ++
              spaces (TABULATION_SIZE * (indent_level + 1) - pos)
            let str_after := spaces (TABULATION_SIZE * indent_level)
            let newList := String.mk (list.data.take (list.length - 1) ++
              (str_before ++ insert_value ++ "\n" ++ str_after).data ++
              list.data.drop (list.length - 1))
            setOption file_content nix_list newList
        else
          .ok file_content
    | none =>
      let nb_elem_path := nix_list.length
      setOption file_content nix_list
        ("[\n" ++ spaces (TABULATION_SIZE * (nb_elem_path + 1)) ++
          insert_value ++ "\n" ++ spaces (TABULATION_SIZE * nb_elem_path) ++ "]")

/-- Embeds `str::find` of a pattern from a start offset: the first index at which the
pattern occurs as a substring. -/
def findSubGo (l pat : List Char) : Nat → Nat → Option Nat
  | _, 0 => none
  | i, fuel + 1 =>
    if pat.isPrefixOf (l.drop i) then some i else findSubGo l pat (i + 1) fuel

def findSub (l pat : List Char) (start : Nat) : Option Nat :=
  findSubGo l pat start (l.length + 1 - start)

/-- The element-search loop of `remove_in_list` (lines 127–143): walk the
whitespace-separated elements looking for the first one equal to
`insert_value`; on a hit, its byte range is recovered with
`list[1..].find(elem)` (the `unwrap` cannot fail since the element is a
substring of the list; `none` mirrors the element not being found at all). -/
def removeFindGo (elems : List String) (list : List Char)
    (insert_value : String) : Option (Nat × Nat) :=
  match elems with
  | [] => none
  | elem :: rest =>
    if elem = insert_value then
      match findSub list elem.data 1 with
      | some s => some (s, s + elem.length)
      | none => none
    else removeFindGo rest list insert_value

/-- The whitespace-trim loop of `remove_in_list` (lines 158–167): while the
character at the position is a space, tab or newline (and the position is
positive), remove it and step back. -/
def trimAtGo : List Char → Nat → List Char
  | l, 0 => l
  | l, pos + 1 =>
    match l.get? (pos + 1) with
    | some c =>
      if c = ' ' || c = '\t' || c = '\n' then trimAtGo (l.eraseIdx (pos + 1)) pos
      else l
    | none => l

/-- Embeds `remove_in_list` from `src/edit_ast/edit_list_ast.rs`: remove the first
instance of the value in the list, clearing the whole option when it is the
only element. -/
def remove_in_list (file_content : String) (nix_list : List String)
    (insert_value : String) : Except String String :=
  match pos_option_in_file file_content nix_list with
  | .error e => .error e
  | .ok val_list =>
    match val_list.get_pos_definition_value with
    | some list_pos =>
      match strSlice file_content list_pos.start list_pos.stop with
      | none => .error "Impossible to read list"
      | some list =>
        if !str_is_list list then .error "This option is not a list"
        else
          match removeFindGo (listElems list) list.data insert_value with
          | none => .ok file_content
          | some (start, stop) =>
            if (listElems list).length = 1 then
              match set_option_to_default file_content nix_list with
              | .error e => .error e
              | .ok (_, fc) => .ok fc
            else
              let list1 := (list.data.take start) ++ (list.data.drop stop)
              let list2 := String.mk (trimAtGo list1 (start - 1))
              setOption file_content nix_list list2
    | none => .ok file_content

/-! ### Managed files and transactions

Embedded from `src/error.rs`, `src/transaction/file_lock.rs` and
`src/transaction/transaction.rs`.  Filesystem and git effects are made
explicit: an open handle carries the on-disk bytes and the read/write cursor
with POSIX semantics (`read_to_string` reads from the cursor to the end of
file and leaves the cursor there; `write` writes at the cursor, overwriting in
place without truncating); the externally determined outcomes a commit
observes (status drain, queue-lock availability, rebuild exit status) are
passed as an environment; git operations themselves are modelled as
succeeding, and the version-control commits a run records are returned
explicitly. -/

/-- The error kinds `ErrorType` from `src/error.rs` (payloads of the I/O and git variants
abstracted away). -/
inductive ErrorType where
  | InvalidFile
  | FileNotFound
  | OptionNotFound
  | FailToLock
  | PermissionDenied
  | TransactionNotBegin
  | GitNotCommitted
  | IOError
  | GitError
deriving DecidableEq, Repr

/-- An open OS file handle: on-disk bytes plus cursor. -/
structure FileHandle where
  disk : String
  cursor : Nat
deriving DecidableEq, Repr

/-- Embeds `Read::read_to_string(&mut buf)`: append everything from the cursor to
the end of file to `buf`; the cursor ends at the end of file. -/
def FileHandle.read_to_string (h : FileHandle) (buf : String) :
    FileHandle × String :=
  (⟨h.disk, h.disk.length⟩, buf ++ String.mk (h.disk.data.drop h.cursor))

/-- Embeds `Write::write(bytes)` at the current cursor: overwrite in place,
extending the file when writing past the end; no truncation. -/
def FileHandle.write (h : FileHandle) (s : String) : FileHandle :=
  ⟨String.mk (h.disk.data.take h.cursor ++ s.data ++
      h.disk.data.drop (h.cursor + s.length)),
    h.cursor + s.length⟩

/-- The `NixFile` record from `src/transaction/file_lock.rs`. -/
structure NixFile where
  file : Option FileHandle
  path : String
  file_content : String
  file_content_old : String
deriving DecidableEq, Repr

def NixFile.new (path : String) : NixFile :=
  ⟨none, path, "", ""⟩

/-- Outcome of `attach_on_transaction`.  `blockedOnLock` is the state of the
call while another process holds the advisory lock: the source uses the
blocking `File::lock()`, which waits for the holder to release the lock
instead of returning. -/
inductive AttachOutcome where
  | ok (nf : NixFile)
  | err (e : ErrorType)
  | blockedOnLock
deriving DecidableEq, Repr

/-- Embeds `NixFile::attach_on_transaction` (lines 43–85): require an open
transaction, open the file read/write (opening is modelled as succeeding;
the source maps open failures to `PermissionDenied` / `FileNotFound` /
`IOError`), acquire the exclusive advisory lock with the blocking
`File::lock()`, then read the contents twice — once into `file_content` and
once more, from the now exhausted cursor, into `file_content_old`.
`disk` is the file's on-disk content and `lockHeldByOther` whether another
process currently holds the lock. -/
def NixFile.attach_on_transaction (nf : NixFile) (transaction_begun : Bool)
    (disk : String) (lockHeldByOther : Bool) : AttachOutcome :=
  if !transaction_begun then
    .err .TransactionNotBegin
  else
    let h := match nf.file with
      | none => (⟨disk, 0⟩ : FileHandle)
      | some h0 => h0
    if lockHeldByOther then
      .blockedOnLock
    else
      let (h1, c1) := h.read_to_string nf.file_content
      let (h2, c2) := h1.read_to_string nf.file_content_old
      .ok { nf with file := some h2, file_content := c1, file_content_old := c2 }

/-- Embeds `NixFile::get_mut_file_content` followed by a store: replace the working
buffer, available only while attached. -/
def NixFile.set_file_content (nf : NixFile) (s : String) :
    Except ErrorType NixFile :=
  match nf.file with
  | none => .error .TransactionNotBegin
  | some _ => .ok { nf with file_content := s }

/-- Embeds `NixFile::commit` (lines 87–102): write the working buffer at the current
cursor, then release the lock. -/
def NixFile.commit (nf : NixFile) : Except ErrorType NixFile :=
  match nf.file with
  | none => .error .InvalidFile
  | some h => .ok { nf with file := some (h.write nf.file_content) }

/-- Embeds `NixFile::rollback` (lines 104–115): clear the working buffer, then write
the pristine buffer at the current cursor.  (The source unwraps the handle;
the detached case cannot arise inside a transaction and surfaces here as an
I/O error.) -/
def NixFile.rollback (nf : NixFile) : Except ErrorType NixFile :=
  match nf.file with
  | none => .error .IOError
  | some h =>
    .ok { nf with file_content := "", file := some (h.write nf.file_content_old) }

/-- Embeds `git2::Signature`: name and email. -/
structure GitSignature where
  name : String
  email : String
deriving DecidableEq, Repr

/-- A version-control commit recorded on the current branch. -/
structure CommitRecord where
  author : GitSignature
  committer : GitSignature
  message : String
deriving DecidableEq, Repr

/-- The `Transaction` record from `src/transaction/transaction.rs`: the description, the
attached files (the `HashMap` in iteration order), whether the git repository
handle is held (open vs idle), and the stored signature.  The build mode only
determines the rebuild command line, which is part of the environment here. -/
structure Transaction where
  info : String
  list_file : List NixFile
  git_repo : Bool
  git_user : GitSignature
deriving DecidableEq, Repr

/-- Embeds `Transaction::new` with the fixed author identity. -/
def Transaction.new (transaction_description : String) : Transaction :=
  ⟨transaction_description, [], false, ⟨"Modulix-OS", "modulix.os@ik-mail.com"⟩⟩

/-- Embeds `Transaction::begin` (lines 203–224): open the repository and require a
clean status. -/
def Transaction.begin (t : Transaction) (repo_opens statuses_empty : Bool) :
    Except ErrorType Transaction :=
  if !repo_opens then .error .GitError
  else if !statuses_empty then .error .GitNotCommitted
  else .ok { t with git_repo := true }

/-- The externally determined outcomes observed during `Transaction::commit`:
whether the git status drains within the two-minute poll, whether the
non-blocking queue-lock attempt succeeds, and whether the `nixos-rebuild`
subprocess exits successfully. -/
structure CommitEnv where
  status_drains : Bool
  queue_lock_free : Bool
  rebuild_ok : Bool
deriving DecidableEq, Repr

/-- The `for … { nix_file.commit()?; }` loop: mutate files in order, stopping
at the first error (files already committed keep their new state). -/
def filesCommitGo : List NixFile → Except ErrorType Unit × List NixFile
  | [] => (.ok (), [])
  | f :: rest =>
    match f.commit with
    | .error e => (.error e, f :: rest)
    | .ok f1 =>
      let (r, rest1) := filesCommitGo rest
      (r, f1 :: rest1)

/-- The `for … { nix_file.rollback()?; }` loop of `Transaction::rollback`. -/
def filesRollbackGo : List NixFile → Except ErrorType Unit × List NixFile
  | [] => (.ok (), [])
  | f :: rest =>
    match f.rollback with
    | .error e => (.error e, f :: rest)
    | .ok f1 =>
      let (r, rest1) := filesRollbackGo rest
      (r, f1 :: rest1)

/-- Embeds `Transaction::rollback` (lines 256–265): restore every attached file,
then drop the repository handle. -/
def Transaction.rollback (t : Transaction) :
    Except ErrorType Unit × Transaction :=
  if !t.git_repo then (.error .TransactionNotBegin, t)
  else
    match filesRollbackGo t.list_file with
    | (.error e, files) => (.error e, { t with list_file := files })
    | (.ok _, files) => (.ok (), { t with list_file := files, git_repo := false })

/-- Embeds `Transaction::commit` (lines 226–254): flush every file and release its
lock, stage the paths (`git_add`, modelled as succeeding), wait for the
status to drain, then — only if the non-blocking queue-lock attempt
succeeded — take the build lock, run the rebuild and, on success, record the
version-control commit; roll back and fail with `InvalidFile` when the
rebuild fails.  Returns the result, the final transaction state and the list
of version-control commits recorded during the run. -/
def Transaction.commit (t : Transaction) (env : CommitEnv) :
    Except ErrorType Unit × Transaction × List CommitRecord :=
  if !t.git_repo then (.error .TransactionNotBegin, t, [])
  else
    match filesCommitGo t.list_file with
    | (.error e, files) => (.error e, { t with list_file := files }, [])
    | (.ok _, files) =>
      let t1 : Transaction := { t with list_file := files }
      if !env.status_drains then (.error .InvalidFile, t1, [])
      else if env.queue_lock_free then
        -- queue lock acquired; build lock taken blockingly; queue released
        if !env.rebuild_ok then
          match t1.rollback with
          | (.error e, t2) => (.error e, t2, [])
          | (.ok _, t2) => (.error .InvalidFile, t2, [])
        else
          ((.ok ()), { t1 with git_repo := false },
            [⟨t1.git_user, t1.git_user, t1.info⟩])
      else
        -- queue lock not acquired: skip the rebuild (another transaction is
        -- queued); the source then also skips the git commit
        ((.ok ()), { t1 with git_repo := false }, [])

/-! ### Specification-side predicates -/

mutual

/-- The spec's notion (§8, property 1) of a syntactically realised binding
whose dotted path is exactly `p`, counting prefix-split attribute paths and
nested attribute sets as equivalent: the binding's path equals `p`, or it is a
strict prefix of `p` whose attribute-set value realises the rest. -/
def exactBindingB : DocBinding → List String → Bool
  | .mk _ _ q v, p =>
    q == p ||
      (segsPrefixOf q p && decide (q.length < p.length) &&
        (match v with
         | .vset _ bs => exactBindingSet bs (p.drop q.length)
         | .vleaf _ _ => false))

def exactBindingSet : List DocBinding → List String → Bool
  | [], _ => false
  | b :: rest, p => exactBindingB b p || exactBindingSet rest p

end

/-- Applies `exactBindingSet` at the document root. -/
def exactBindingDoc : DocValue → List String → Bool
  | .vset _ bs, p => exactBindingSet bs p
  | .vleaf _ _, _ => false

mutual

/-- What the locator actually treats as "existing": a chain of bindings whose
concatenated attribute path is a — not necessarily exact — prefix of `p` and
whose final value is a leaf (not an attribute set).  (This is the corrected
right-hand side for claim C1.) -/
def chainB : DocBinding → List String → Bool
  | .mk _ _ q v, p =>
    segsPrefixOf q p &&
      (match v with
       | .vleaf _ _ => true
       | .vset _ bs => decide (q.length < p.length) && chainSet bs (p.drop q.length))

def chainSet : List DocBinding → List String → Bool
  | [], _ => false
  | b :: rest, p => chainB b p || chainSet rest p

end

/-- Applies `chainSet` at the document root. -/
def chainDoc : DocValue → List String → Bool
  | .vset _ bs, p => chainSet bs p
  | .vleaf _ _, _ => false

/-- Modelled from the spec (§4.3): the number of whitespace bytes immediately
preceding the position, up to but not including the most recent newline (the
*prior indentation run*). -/
def wsRunBeforeGo (text : List Char) : Nat → Nat → Nat
  | 0, n => n
  | pos + 1, n =>
    match text.get? pos with
    | some c =>
      if c = ' ' || c = '\t' then wsRunBeforeGo text pos (n + 1) else n
    | none => n

def wsRunBefore (text : String) (pos : Nat) : Nat :=
  wsRunBeforeGo text.data pos 0

deriving instance DecidableEq for Except

/-- The buffer a caller observes after a call to one of the in-place
mutators: the new buffer on success; the Rust functions return errors before
any in-place mutation, so on an error the caller's buffer is unchanged. -/
def bufferAfter (fc : String) : Except String String → String
  | .ok fc2 => fc2
  | .error _ => fc

/-! ### The locator's shape invariant (value range ↔ no remaining path) -/

/-- A position carries a value range exactly when it carries no remaining
path. -/
def PosInv (pos : SettingsPosition) : Prop :=
  pos.value_option.isSome = pos.option_path.isNone

/-- Invariant of the stored best partial match of
`localise_option_node_attr_set`: it was stored with its residual path and
carries no value range. -/
def BestInv : Option (SettingsPosition × List String) → Prop
  | none => True
  | some b => b.1.option_path = some b.2 ∧ b.1.value_option = none

def NodeInvP (ast : Node) : Prop :=
  ∀ settings lvl pos, localise_option ast settings lvl = some pos → PosInv pos

def NodeInvQ (cs : List Node) : Prop :=
  (∀ settings lvl pos, localiseFirst cs settings lvl = some pos → PosInv pos) ∧
  (∀ r setting lvl best, BestInv best → PosInv (attrSetGo cs r setting lvl best)) ∧
  (∀ r attr settings lvl pos, stepValue r cs attr settings lvl = some pos →
    PosInv pos)

/-! ### What the locator's Existing results correspond to -/

/-- A locator result is an *Existing* position (no remaining path). -/
def optExisting : Option SettingsPosition → Bool
  | some pos => pos.option_path.isNone
  | none => false

/-- The stored best partial match carries its residual path. -/
def BestPath : Option (SettingsPosition × List String) → Prop
  | none => True
  | some b => b.1.option_path = some b.2

def ChainListProp (bs : List DocBinding) : Prop :=
  ∀ r p lvl best, BestPath best →
    ((attrSetGo (toNodeList bs) r p lvl best).option_path = none ↔
      chainSet bs p = true)

def ChainBindProp (b : DocBinding) : Prop :=
  ∀ p lvl, optExisting (localise_option b.toNode p lvl) = chainB b p

def ChainValProp (v : DocValue) : Prop :=
  ∀ r bs, v = .vset r bs → ChainListProp bs

lemma nodeInv_mk (k : Kind) (r : TextRange) (s : List String) (cs : List Node)
    (hq : NodeInvQ cs) : NodeInvP (.mk k r s cs) := by
  intro settings lvl pos h
  cases k <;> simp only [localise_option] at h
  case ATTR_SET =>
    cases h
    exact hq.2.1 r settings (lvl + 1) none trivial
  case ATTRPATH_VALUE =>
    cases hf : findAttrSegs cs settings with
    | none => rw [hf] at h; cases h
    | some attr => rw [hf] at h; exact hq.2.2 r attr settings lvl pos h
  all_goals exact hq.1 settings lvl pos h

lemma nodeInv_nil : NodeInvQ [] := by
  refine ⟨?_, ?_, ?_⟩
  · intro settings lvl pos h; simp only [localiseFirst] at h; cases h
  · intro r setting lvl best hbest
    cases best with
    | none => simp only [attrSetGo]; rfl
    | some b =>
      simp only [attrSetGo, PosInv, hbest.1, hbest.2]
      rfl
  · intro r attr settings lvl pos h; simp only [stepValue] at h; cases h

lemma nodeInv_cons (c : Node) (rest : List Node) (hp : NodeInvP c)
    (hq : NodeInvQ rest) : NodeInvQ (c :: rest) := by
  refine ⟨?_, ?_, ?_⟩
  · intro settings lvl pos h
    simp only [localiseFirst] at h
    split at h
    next ret hc => cases h; exact hp settings lvl _ hc
    next hc => exact hq.1 settings lvl pos h
  · intro r setting lvl best hbest
    simp only [attrSetGo]
    split
    next hc => exact hq.2.1 r setting lvl best hbest
    next pos0 hc =>
      split
      next hop => exact hp setting lvl pos0 hc
      next pRes hop =>
        have hinv : PosInv pos0 := hp setting lvl pos0 hc
        have hval : pos0.value_option = none := by
          unfold PosInv at hinv
          rw [hop] at hinv
          simpa using hinv
        split
        next => exact hq.2.1 r setting lvl (some (pos0, pRes)) ⟨hop, hval⟩
        next b =>
          split
          · exact hq.2.1 r setting lvl (some (pos0, pRes)) ⟨hop, hval⟩
          · exact hq.2.1 r setting lvl (some b) hbest
  · intro r attr settings lvl pos h
    obtain ⟨kc, rc, sc, csc⟩ := c
    simp only [stepValue, Node.kind, Node.children] at h
    split at h
    next hvk =>
      split at h
      next hks =>
        split at h
        next hlen => cases h
        next hlen =>
          cases h
          subst hks
          have heq : localise_option (.mk .ATTR_SET rc sc csc)
              (settings.drop attr.length) lvl
              = some (attrSetGo csc rc (settings.drop attr.length)
                (lvl + 1) none) := by
            simp only [localise_option]
          exact hp (settings.drop attr.length) lvl _ heq
      next hks =>
        split at h
        next hkw =>
          split at h
          · exact hq.2.2 r attr settings lvl pos h
          · split at h
            · cases h; rfl
            · cases h
        next hkw =>
          cases h
          rfl
    next hvk => exact hq.2.2 r attr settings lvl pos h

/-- The locator's invariant, for every node of every tree. -/
lemma localise_option_inv (ast : Node) : NodeInvP ast := by
  refine Node.rec (motive_1 := NodeInvP) (motive_2 := NodeInvQ)
    ?_ ?_ ?_ ast
  · intro k r s cs ih; exact nodeInv_mk k r s cs ih
  · exact nodeInv_nil
  · intro c rest ih1 ih2; exact nodeInv_cons c rest ih1 ih2

lemma toNode_kind_ne_attrpath (v : DocValue) :
    ¬(DocValue.toNode v).kind = .ATTRPATH := by
  cases v with
  | vset r bs => simp [DocValue.toNode, Node.kind]
  | vleaf k r => cases k <;> simp [DocValue.toNode, Node.kind, LeafKind.toKind]

lemma chain_vset (r : TextRange) (bs : List DocBinding)
    (ih : ChainListProp bs) : ChainValProp (.vset r bs) := by
  intro r' bs' heq
  cases heq
  exact ih

lemma chain_vleaf (k : LeafKind) (r : TextRange) :
    ChainValProp (.vleaf k r) := by
  intro r' bs' heq
  cases heq

lemma segsPrefixOf_length {q p : List String} (h : segsPrefixOf q p = true) :
    q.length ≤ p.length := by
  unfold segsPrefixOf at h
  have := (Bool.and_eq_true _ _).mp h
  simpa using this.1

lemma chain_bind (r pr : TextRange) (q : List String) (v : DocValue)
    (ih : ChainValProp v) : ChainBindProp (.mk r pr q v) := by
  intro p lvl
  by_cases hpre : segsPrefixOf q p
  · have hf : findAttrSegs [Node.mk .ATTRPATH pr q [], v.toNode] p = some q := by
      simp [findAttrSegs, Node.kind, Node.segs, hpre]
    have hloc : localise_option (DocBinding.mk r pr q v).toNode p lvl
        = stepValue r [Node.mk .ATTRPATH pr q [], v.toNode] q p lvl := by
      simp only [DocBinding.toNode, localise_option]
      rw [hf]
    have hskip : stepValue r [Node.mk .ATTRPATH pr q [], v.toNode] q p lvl
        = stepValue r [v.toNode] q p lvl := rfl
    rw [hloc, hskip]
    cases v with
    | vleaf k rv =>
      cases k <;>
        simp [DocValue.toNode, stepValue, LeafKind.toKind, isValueKind,
          Node.kind, Node.text_range, optExisting, chainB, hpre]
    | vset rv bs =>
      by_cases hlen : q.length = p.length
      · have hstep : stepValue r [(DocValue.vset rv bs).toNode] q p lvl
            = none := by
          simp [DocValue.toNode, stepValue, Node.kind, isValueKind, hlen]
        rw [hstep]
        simp [optExisting, chainB, hpre, hlen]
      · have hlt : q.length < p.length :=
          lt_of_le_of_ne (segsPrefixOf_length hpre) hlen
        have hstep : stepValue r [(DocValue.vset rv bs).toNode] q p lvl
            = some (attrSetGo (toNodeList bs) rv (p.drop q.length)
                (lvl + 1) none) := by
          simp [DocValue.toNode, stepValue, Node.kind, isValueKind, hlen]
        rw [hstep]
        have hcl := (ih rv bs rfl) rv (p.drop q.length) (lvl + 1) none trivial
        simp only [optExisting, chainB, hpre, Bool.true_and]
        have hrhs : (decide (q.length < p.length) &&
            chainSet bs (p.drop q.length)) = chainSet bs (p.drop q.length) := by
          simp [hlt]
        rw [hrhs]
        cases hcs : chainSet bs (p.drop q.length) with
        | true =>
          rw [hcs] at hcl
          simp [Option.isNone_iff_eq_none, hcl.mpr rfl]
        | false =>
          rw [hcs] at hcl
          have hne : ¬((attrSetGo (toNodeList bs) rv (p.drop q.length)
              (lvl + 1) none).option_path = none) := by
            intro hh
            simpa using hcl.mp hh
          cases ho : (attrSetGo (toNodeList bs) rv (p.drop q.length)
              (lvl + 1) none).option_path with
          | none => exact absurd ho hne
          | some z => simp [ho]
  · have hf : findAttrSegs [Node.mk .ATTRPATH pr q [], v.toNode] p = none := by
      cases v with
      | vset rv bs =>
        simp [findAttrSegs, Node.kind, Node.segs, hpre, DocValue.toNode]
      | vleaf k rv =>
        cases k <;>
          simp [findAttrSegs, Node.kind, Node.segs, hpre, DocValue.toNode,
            LeafKind.toKind]
    have hloc : localise_option (DocBinding.mk r pr q v).toNode p lvl
        = none := by
      simp only [DocBinding.toNode, localise_option]
      rw [hf]
    rw [hloc]
    have hcb : chainB (DocBinding.mk r pr q v) p = false := by
      unfold chainB
      simp [hpre]
    rw [hcb]
    rfl

lemma chain_nil : ChainListProp [] := by
  intro r p lvl best hbp
  simp only [toNodeList, attrSetGo, chainSet]
  cases best with
  | none => simp
  | some b =>
    simp only [BestPath] at hbp
    simp [hbp]

lemma chain_cons (b : DocBinding) (rest : List DocBinding)
    (ihb : ChainBindProp b) (ihl : ChainListProp rest) :
    ChainListProp (b :: rest) := by
  intro r p lvl best hbp
  simp only [toNodeList, attrSetGo, chainSet]
  split
  next hc =>
    have hcb : chainB b p = false := by rw [← ihb p lvl, hc]; rfl
    rw [hcb]
    simp only [Bool.false_or]
    exact ihl r p lvl best hbp
  next pos0 hc =>
    split
    next hop =>
      have hcb : chainB b p = true := by
        rw [← ihb p lvl, hc]
        simp [optExisting, hop]
      simp [hop, hcb]
    next pRes hop =>
      have hcb : chainB b p = false := by
        rw [← ihb p lvl, hc]
        simp [optExisting, hop]
      rw [hcb]
      simp only [Bool.false_or]
      cases best with
      | none => exact ihl r p lvl (some (pos0, pRes)) hop
      | some bb =>
        show (if dottedLen pRes > dottedLen bb.2 then
            attrSetGo (toNodeList rest) r p lvl (some (pos0, pRes))
          else attrSetGo (toNodeList rest) r p lvl (some bb)).option_path
            = none ↔ chainSet rest p = true
        by_cases hcmp : dottedLen pRes > dottedLen bb.2
        · rw [if_pos hcmp]
          exact ihl r p lvl (some (pos0, pRes)) hop
        · rw [if_neg hcmp]
          exact ihl r p lvl (some bb) hbp

/-- The correspondence between the locator's Existing results and binding
chains, for every parsed value. -/
lemma chainVal_all (v : DocValue) : ChainValProp v := by
  refine DocValue.rec (motive_1 := ChainValProp) (motive_2 := ChainBindProp)
    (motive_3 := ChainListProp) ?_ ?_ ?_ ?_ ?_ v
  · intro r bs ih; exact chain_vset r bs ih
  · intro k r; exact chain_vleaf k r
  · intro r pr segs vv ih; exact chain_bind r pr segs vv ih
  · exact chain_nil
  · intro hd tl ih1 ih2; exact chain_cons hd tl ih1 ih2

/-! ### Glue lemmas -/

lemma parse_shape {s : String} {d : DocValue} (h : parse s = some d) :
    ∃ r bs, d = .vset r bs := by
  unfold parse at h
  split at h
  next r bs rem q heq =>
    split at h
    · exact ⟨r, bs, by cases h; rfl⟩
    · cases h
  next => cases h

lemma pos_option_of_parse {s : String} {p : List String} {r : TextRange}
    {bs : List DocBinding} (h : parse s = some (.vset r bs)) :
    pos_option_in_file s p = .ok (attrSetGo (toNodeList bs) r p 1 none) := by
  have hnew : SettingsPosition.new (rnixRoot s (.vset r bs)) p
      = some (attrSetGo (toNodeList bs) r p 1 none) := by
    simp [SettingsPosition.new, rnixRoot, localise_option, DocValue.toNode,
      localiseFirst]
  unfold pos_option_in_file
  rw [h]
  show (match SettingsPosition.new (rnixRoot s (DocValue.vset r bs)) p with
    | some p0 => Except.ok p0
    | none =>
      Except.error "Impossible to get position option in file")
    = Except.ok (attrSetGo (toNodeList bs) r p 1 none)
  rw [hnew]

lemma posInv_of_pos_option {s : String} {p : List String}
    {pos : SettingsPosition} (h : pos_option_in_file s p = .ok pos) :
    PosInv pos := by
  unfold pos_option_in_file at h
  split at h
  next d hd =>
    split at h
    · rename_i q hq
      cases h
      exact localise_option_inv (rnixRoot s d) p 0 _ hq
    · cases h
  next hd => cases h

/-! ### Claim theorems -/

/-- C1 (counterexample): on `{ a = true; }` and path `a.b`, the locator
returns an Existing position (value range `true`, no remaining path) although
no binding with dotted path exactly `a.b` exists in the source. -/
theorem C1_counterexample :
    pos_option_in_file ("\x7b a = true; \x7d") ["a", "b"]
      = .ok ⟨⟨2, 11⟩, some ⟨6, 10⟩, none, 1⟩ ∧
    (parse ("\x7b a = true; \x7d")).map
      (fun d => exactBindingDoc d ["a", "b"]) = some false := by
  exact ⟨by rfl, by rfl⟩

/-- C1 (amended): locating `p` in the parse of `s` returns an Existing
position (a value range and no remaining path) iff a chain of bindings exists
whose concatenated attribute path is a — not necessarily exact — prefix of `p`
and whose final value is a leaf, not an attribute set.  In particular a
binding whose path is a strict prefix of `p` with a leaf value does yield
Existing, and a binding whose path equals `p` exactly with an attribute-set
value yields a NewInsertion rather than Existing. -/
theorem C1_locate_existing_iff (s : String) (p : List String) (d : DocValue)
    (pos : SettingsPosition) (hparse : parse s = some d)
    (hpos : pos_option_in_file s p = .ok pos) :
    (pos.get_remaining_path = none ∧ pos.get_pos_definition_value.isSome = true)
      ↔ chainDoc d p = true := by
  obtain ⟨r, bs, rfl⟩ := parse_shape hparse
  have hpo := pos_option_of_parse (p := p) hparse
  rw [hpo] at hpos
  cases hpos
  have hinv : PosInv (attrSetGo (toNodeList bs) r p 1 none) :=
    posInv_of_pos_option hpo
  have hcl := (chainVal_all (.vset r bs)) r bs rfl r p 1 none trivial
  unfold chainDoc
  simp only [SettingsPosition.get_remaining_path,
    SettingsPosition.get_pos_definition_value]
  constructor
  · rintro ⟨h1, _⟩
    exact hcl.mp h1
  · intro h2
    have h1 := hcl.mpr h2
    refine ⟨h1, ?_⟩
    unfold PosInv at hinv
    rw [h1] at hinv
    simpa using hinv

/-- C1 (witness): the amended equivalence evaluated on `{ a = true; }` at
path `a`. -/
theorem C1_witness :
    (SettingsPosition.get_remaining_path ⟨⟨2, 11⟩, some ⟨6, 10⟩, none, 1⟩
        = none ∧
      Option.isSome
        (SettingsPosition.get_pos_definition_value
          ⟨⟨2, 11⟩, some ⟨6, 10⟩, none, 1⟩) = true)
      ↔ chainDoc (DocValue.vset ⟨0, 13⟩
          [DocBinding.mk ⟨2, 11⟩ ⟨2, 3⟩ ["a"] (.vleaf .ident ⟨6, 10⟩)])
          ["a"] = true :=
  C1_locate_existing_iff ("\x7b a = true; \x7d") ["a"] _ _ (by rfl) (by rfl)

/-- C2 (evaluation): a transaction attaches a file holding `{ }` — the second
`read_to_string` reads from the exhausted cursor, so the pristine buffer is
empty — edits it to `{ a = 1; }`, and commits with a failing rebuild.  The
commit rolls back, yet the on-disk bytes are `{ }{ a = 1; }` (the flush wrote
at the cursor and the rollback wrote the empty pristine buffer), not the
pre-transaction bytes `{ }`. -/
theorem C2_rollback_eval :
    NixFile.attach_on_transaction (NixFile.new "configuration.nix") true
        ("\x7b \x7d") false
      = .ok ⟨some ⟨"\x7b \x7d", 3⟩, "configuration.nix", "\x7b \x7d", ""⟩ ∧
    (Transaction.commit
        ⟨"enable option a",
          [⟨some ⟨"\x7b \x7d", 3⟩, "configuration.nix", "\x7b a = 1; \x7d", ""⟩],
          true, ⟨"Modulix-OS", "modulix.os@ik-mail.com"⟩⟩
        ⟨true, true, false⟩).1 = .error .InvalidFile ∧
    (Transaction.commit
        ⟨"enable option a",
          [⟨some ⟨"\x7b \x7d", 3⟩, "configuration.nix", "\x7b a = 1; \x7d", ""⟩],
          true, ⟨"Modulix-OS", "modulix.os@ik-mail.com"⟩⟩
        ⟨true, true, false⟩).2.1.list_file.map
        (fun f => f.file.map FileHandle.disk)
      = [some ("\x7b \x7d\x7b a = 1; \x7d")] ∧
    some ("\x7b \x7d\x7b a = 1; \x7d") ≠ some ("\x7b \x7d") := by
  refine ⟨by rfl, by rfl, by rfl, by decide⟩

/-- C3 (evaluation): the set/get round trip fails on the single-line source
`{ }`: `set_option` overwrites the opening brace (the prior-run count swallows
it), the result no longer parses, and `get_option` errors instead of
returning the value. -/
theorem C3_roundtrip_eval :
    setOption ("\x7b \x7d") ["a"] "1" = .ok ("  a = 1;\n\x7d") ∧
    get_option ("  a = 1;\n\x7d") ["a"]
      = .error "Impossible to get position option in file" ∧
    (Except.error "Impossible to get position option in file"
      ≠ (Except.ok "1" : Except String String)) := by
  refine ⟨by rfl, by rfl, by decide⟩

/-- C4 (evaluation): with two partial candidates (`a = { }` with residual
`b.c` and `a.b = { }` with residual `c`), the locator keeps the candidate
with the *longest* residual path, `b.c`, inserting at the shallower set —
although the more specific insertion point (residual `c`) exists, as the
second conjunct shows on the same nested binding alone. -/
theorem C4_best_residual_eval :
    pos_option_in_file ("\x7b a = \x7b \x7d; a.b = \x7b \x7d; \x7d")
      ["a", "b", "c"] = .ok ⟨⟨8, 8⟩, none, some ["b", "c"], 2⟩ ∧
    pos_option_in_file ("\x7b a.b = \x7b \x7d; \x7d") ["a", "b", "c"]
      = .ok ⟨⟨10, 10⟩, none, some ["c"], 2⟩ ∧
    (some [("b" : String), "c"] ≠ some ["c"]) := by
  refine ⟨by rfl, by rfl, by decide⟩

/-- C5 (evaluation): on `{ }` with insert position 2, the code's
`count_char_before_newline` counts 2 characters (it counts *all* characters
back to the newline, swallowing the opening brace) while the whitespace run
of the claim is 1; consequently the buffer produced by `set_option` differs
from the one obtained by replacing only the whitespace slice before the
insert position. -/
theorem C5_leading_eval :
    count_char_before_newline ("\x7b \x7d") 1 = 2 ∧
    wsRunBefore ("\x7b \x7d") 2 = 1 ∧
    setOption ("\x7b \x7d") ["a"] "1" = .ok ("  a = 1;\n\x7d") ∧
    ("  a = 1;\n\x7d" : String)
      ≠ replaceRange ("\x7b \x7d") (2 - 1) 2 (write_option ["a"] 1 "1") := by
  refine ⟨by rfl, by rfl, by rfl, by decide⟩

/-- C6 (counterexample): a commit run that does not obtain the queue lock
returns success and leaves the transaction idle, but records *no*
version-control commit — the source reaches `git_commit` only inside the
queue-lock branch. -/
theorem C6_counterexample :
    Transaction.commit
        ⟨"update", [], true, ⟨"Modulix-OS", "modulix.os@ik-mail.com"⟩⟩
        ⟨true, false, true⟩
      = (.ok (), ⟨"update", [], false, ⟨"Modulix-OS", "modulix.os@ik-mail.com"⟩⟩,
          []) ∧
    ([] : List CommitRecord)
      ≠ [⟨⟨"Modulix-OS", "modulix.os@ik-mail.com"⟩,
          ⟨"Modulix-OS", "modulix.os@ik-mail.com"⟩, "update"⟩] := by
  refine ⟨by rfl, by decide⟩

/-- C6 (amended): every successful commit leaves the transaction idle, and a
version-control commit with the stored identity and the transaction's
description is recorded exactly when the queue lock was obtained (the
skipped-rebuild success path records none). -/
theorem C6_commit_success (t : Transaction) (env : CommitEnv)
    (t' : Transaction) (recs : List CommitRecord)
    (h : t.commit env = (.ok (), t', recs)) :
    t'.git_repo = false ∧
    recs = (if env.queue_lock_free then [⟨t.git_user, t.git_user, t.info⟩]
      else []) := by
  unfold Transaction.commit at h
  split at h
  · simp [Prod.ext_iff] at h
  · split at h
    next e files hfc => simp [Prod.ext_iff] at h
    next files hfc =>
      split at h
      · simp [Prod.ext_iff] at h
      · split at h
        next hq =>
          split at h
          next hrb =>
            dsimp only at h
            split at h
            · simp [Prod.ext_iff] at h
            · simp [Prod.ext_iff] at h
          next hrb =>
            simp only [Prod.ext_iff, Prod.mk.injEq] at h
            obtain ⟨-, ht, hr⟩ := h
            subst ht
            subst hr
            exact ⟨rfl, by rw [if_pos hq]⟩
        next hq =>
          simp only [Prod.ext_iff, Prod.mk.injEq] at h
          obtain ⟨-, ht, hr⟩ := h
          subst ht
          subst hr
          refine ⟨rfl, ?_⟩
          rw [if_neg hq]

/-- C6 (witness): the amended statement evaluated on a one-shot transaction
whose rebuild succeeds with the queue lock held. -/
theorem C6_witness :
    (⟨"update", [], false, ⟨"Modulix-OS", "modulix.os@ik-mail.com"⟩⟩
        : Transaction).git_repo = false ∧
    [(⟨⟨"Modulix-OS", "modulix.os@ik-mail.com"⟩,
        ⟨"Modulix-OS", "modulix.os@ik-mail.com"⟩, "update"⟩ : CommitRecord)]
      = (if true then
          [⟨⟨"Modulix-OS", "modulix.os@ik-mail.com"⟩,
            ⟨"Modulix-OS", "modulix.os@ik-mail.com"⟩, "update"⟩] else []) :=
  C6_commit_success
    ⟨"update", [], true, ⟨"Modulix-OS", "modulix.os@ik-mail.com"⟩⟩
    ⟨true, true, true⟩ _ _ (by rfl)

/-- C7 (counterexample): attaching a file whose advisory lock another process
holds leaves the call blocked in the waiting `File::lock()`; it does not
return `FailToLock`. -/
theorem C7_counterexample :
    NixFile.attach_on_transaction (NixFile.new "configuration.nix") true
        ("\x7b \x7d") true = .blockedOnLock ∧
    AttachOutcome.blockedOnLock ≠ .err .FailToLock := by
  refine ⟨by rfl, by decide⟩

/-- C7 (amended): the function `attach_on_transaction` acquires the exclusive lock with a
*blocking* wait: under contention the call waits for the holder instead of
failing, and without contention a detached file reads the on-disk bytes into
its working buffer (the pristine buffer receives the second, empty read). -/
theorem C7_attach_blocking (nf : NixFile) (disk : String) :
    nf.attach_on_transaction true disk true = .blockedOnLock ∧
    (nf.file = none →
      nf.attach_on_transaction true disk false =
        .ok ⟨some ⟨disk, disk.length⟩, nf.path,
          nf.file_content ++ disk, nf.file_content_old⟩) := by
  constructor
  · unfold NixFile.attach_on_transaction
    rfl
  · intro hfile
    unfold NixFile.attach_on_transaction
    rw [hfile]
    dsimp only [FileHandle.read_to_string]
    have h1 : String.mk (disk.data.drop 0) = disk := by
      cases disk
      rfl
    have h2 : disk.data.drop disk.length = [] := by
      rw [show disk.length = disk.data.length from rfl]
      exact List.drop_length _
    have h3 : nf.file_content_old ++ String.mk (disk.data.drop disk.length)
        = nf.file_content_old := by
      rw [h2, show String.mk [] = "" from rfl]
      exact String.append_empty _
    simp only [h1, h3]
    rfl

/-- C7 (witness): the amended statement evaluated on a fresh managed file and
the on-disk bytes `{ }`. -/
theorem C7_witness :
    NixFile.attach_on_transaction (NixFile.new "configuration.nix") true
        ("\x7b \x7d") true = .blockedOnLock ∧
    ((NixFile.new "configuration.nix").file = none →
      NixFile.attach_on_transaction (NixFile.new "configuration.nix") true
        ("\x7b \x7d") false =
      .ok ⟨some ⟨"\x7b \x7d", ("\x7b \x7d" : String).length⟩,
        (NixFile.new "configuration.nix").path,
        (NixFile.new "configuration.nix").file_content ++ "\x7b \x7d",
        (NixFile.new "configuration.nix").file_content_old⟩) :=
  C7_attach_blocking (NixFile.new "configuration.nix") ("\x7b \x7d")

/-- C8 (counterexample): with two bindings of the same path, clearing is not
idempotent — the first call removes `a = 1;`, the second removes `a = 2;` as
well, so `clear (clear s) ≠ clear s`. -/
theorem C8_counterexample :
    set_option_to_default ("\x7b a = 1; a = 2; \x7d") ["a"]
      = .ok (true, "\x7b a = 2; \x7d") ∧
    set_option_to_default ("\x7b a = 2; \x7d") ["a"]
      = .ok (true, "\x7b \x7d") ∧
    ("\x7b \x7d" : String) ≠ "\x7b a = 2; \x7d" := by
  refine ⟨by rfl, by rfl, by decide⟩

/-- C8 (amended): when the locator yields no value range (the option is
absent), `set_option_to_default` is a no-op returning `false`; consequently a
second application is a no-op — and clearing is idempotent — whenever the
option is no longer located after the first one (which fails only when
several bindings of the same path exist). -/
theorem C8_clear_amended (s : String) (p : List String) :
    (∀ pos, pos_option_in_file s p = .ok pos →
      pos.get_pos_definition_value = none →
      set_option_to_default s p = .ok (false, s)) ∧
    (∀ s₁ b pos₁, set_option_to_default s p = .ok (b, s₁) →
      pos_option_in_file s₁ p = .ok pos₁ →
      pos₁.get_pos_definition_value = none →
      set_option_to_default s₁ p = .ok (false, s₁)) := by
  have base : ∀ s₀ pos, pos_option_in_file s₀ p = .ok pos →
      pos.get_pos_definition_value = none →
      set_option_to_default s₀ p = .ok (false, s₀) := by
    intro s₀ pos hpos hval
    unfold set_option_to_default
    rw [hpos]
    dsimp only
    rw [hval]
  exact ⟨fun pos h1 h2 => base s pos h1 h2,
    fun s₁ b pos₁ _ h2 h3 => base s₁ pos₁ h2 h3⟩

/-- C8 (witness): clearing `a` in `{ a = 1; }` yields `{ }`; the second
application is a no-op on `{ }`. -/
theorem C8_witness :
    set_option_to_default ("\x7b \x7d") ["a"] = .ok (false, "\x7b \x7d") :=
  (C8_clear_amended ("\x7b a = 1; \x7d") ["a"]).2 ("\x7b \x7d") true
    ⟨⟨2, 2⟩, none, some ["a"], 1⟩ (by rfl) (by rfl) (by rfl)

/-- C9: when the located option's value slice is not a bracketed list, both
list mutators fail with the not-a-list error and the caller's buffer is
byte-for-byte unchanged. -/
theorem C9_not_a_list (fc : String) (p : List String) (e : String) (u : Bool)
    (pos : SettingsPosition) (rv : TextRange) (sl : String)
    (hpos : pos_option_in_file fc p = .ok pos)
    (hval : pos.get_pos_definition_value = some rv)
    (hsl : strSlice fc rv.start rv.stop = some sl)
    (hlist : str_is_list sl = false) :
    add_in_list fc p e u = .error "This option is not a list" ∧
    bufferAfter fc (add_in_list fc p e u) = fc ∧
    remove_in_list fc p e = .error "This option is not a list" ∧
    bufferAfter fc (remove_in_list fc p e) = fc := by
  have hadd : add_in_list fc p e u = .error "This option is not a list" := by
    unfold add_in_list
    rw [hpos]
    dsimp only
    rw [hval]
    dsimp only
    rw [hsl]
    dsimp only
    rw [hlist]
    rfl
  have hrem : remove_in_list fc p e = .error "This option is not a list" := by
    unfold remove_in_list
    rw [hpos]
    dsimp only
    rw [hval]
    dsimp only
    rw [hsl]
    dsimp only
    rw [hlist]
    rfl
  exact ⟨hadd, by rw [hadd]; rfl, hrem, by rw [hrem]; rfl⟩

/-- C9 (witness): on `{ a = true; }`, the value of `a` is the non-list token
`true`; both mutators fail with the not-a-list error and leave the buffer
unchanged. -/
theorem C9_witness :
    add_in_list ("\x7b a = true; \x7d") ["a"] "x" true
      = .error "This option is not a list" ∧
    bufferAfter ("\x7b a = true; \x7d")
      (add_in_list ("\x7b a = true; \x7d") ["a"] "x" true)
      = "\x7b a = true; \x7d" ∧
    remove_in_list ("\x7b a = true; \x7d") ["a"] "x"
      = .error "This option is not a list" ∧
    bufferAfter ("\x7b a = true; \x7d")
      (remove_in_list ("\x7b a = true; \x7d") ["a"] "x")
      = "\x7b a = true; \x7d" :=
  C9_not_a_list ("\x7b a = true; \x7d") ["a"] "x" true
    ⟨⟨2, 11⟩, some ⟨6, 10⟩, none, 1⟩ ⟨6, 10⟩ "true"
    (by rfl) (by rfl) (by rfl) (by rfl)

/-- C10: every position the locator returns carries a value range exactly
when it carries no remaining path, so either field distinguishes an existing
option from an insertion point. -/
theorem C10_position_invariant (ast : Node) (settings : List String)
    (lvl : Nat) (pos : SettingsPosition)
    (h : localise_option ast settings lvl = some pos) :
    pos.get_pos_definition_value.isSome = true ↔
      pos.get_remaining_path = none := by
  have hinv := localise_option_inv ast settings lvl pos h
  unfold PosInv at hinv
  simp only [SettingsPosition.get_pos_definition_value,
    SettingsPosition.get_remaining_path]
  rw [hinv]
  exact Option.isNone_iff_eq_none

/-- C10 (witness): the invariant evaluated on an empty attribute set, where
the locator fabricates an insertion point with no value range. -/
theorem C10_witness :
    Option.isSome (SettingsPosition.get_pos_definition_value
        ⟨⟨12, 12⟩, none, some ["x"], 1⟩) = true ↔
      SettingsPosition.get_remaining_path ⟨⟨12, 12⟩, none, some ["x"], 1⟩
        = none :=
  C10_position_invariant (.mk .ATTR_SET ⟨0, 13⟩ [] []) ["x"] 0 _ (by rfl)
